import Mathlib

/-!
Verification of the session-connector subsystem of `embykeeper`
(`src/embykeeper/embywatcher/emby.py`), shallowly embedded in Lean.

Modelling conventions:
* Python dictionaries (`self._sessions`, `self._session_uses`, the watchdog's
  local `counter`) are embedded as insertion-ordered association lists keyed by
  the loop id (`hash(loop)`), so that iteration order matches Python.
* A dictionary value of Python `None` is `Option.none`; key absence is absence
  from the association list.
* `AsyncSession` objects are identified by a `Nat` tag drawn from a `nextId`
  counter; Python object truthiness of a session is "present and not `None`".
* An `Except Unit` result models control flow through Python exceptions:
  `.error ()` is an exception escaping the modelled block.
* Python strings are embedded as `List Char` where character-level reasoning
  is needed (URL construction) and as `String` elsewhere; the empty string is
  falsy, like in Python.
-/

/-- Ordered association-list lookup, mirroring Python `dict` access. -/
def lookupA {α : Type} : List (Nat × α) → Nat → Option α
  | [], _ => none
  | (k, v) :: rest, key => if k = key then some v else lookupA rest key

/-- Ordered association-list update: existing keys keep their position, new
keys are appended, matching Python `dict` insertion-order semantics. -/
def insertA {α : Type} : List (Nat × α) → Nat → α → List (Nat × α)
  | [], key, val => [(key, val)]
  | (k, v) :: rest, key, val =>
    if k = key then (key, val) :: rest else (k, v) :: insertA rest key val

/-- Association-list removal, mirroring `dict.pop(key, None)`. -/
def eraseA {α : Type} : List (Nat × α) → Nat → List (Nat × α)
  | [], _ => []
  | (k, v) :: rest, key => if k = key then rest else (k, v) :: eraseA rest key

/-! ## Watchdog (`Connector.watchdog`, emby.py lines 49-73)

State visible to one watchdog scan: the session table `sessions`
(`self._sessions`), the reference counts `uses` (`self._session_uses`), the
watchdog-local idle counter `counter`, and a ghost log `closed` recording the
session tags that were closed. -/

structure WatchState where
  sessions : List (Nat × Option Nat)
  uses : List (Nat × Option Int)
  counter : List (Nat × Nat)
  closed : List Nat
deriving DecidableEq

/-- Python truthiness of an int-or-`None` reference count: `None` and `0` are
falsy, every other integer is truthy. -/
def intTruthy : Option Int → Bool
  | none => false
  | some v => decide (v ≠ 0)

/-- The guard `if u and u <= 0:` of the watchdog loop.  The conjunction is
short-circuit, so `u <= 0` is only evaluated on a truthy `u` (no `TypeError`
on `None`). -/
def idleCond (u : Option Int) : Bool :=
  intTruthy u && (match u with | none => false | some v => decide (v ≤ 0))

/-- One iteration of `for s, u in self._session_uses.items():` of
`Connector.watchdog`.  `threshold` is `timeout / 10`.  A `.error` result is an
exception not caught by the `except (TypeError, KeyError)` clause: the only
such exception here is the `AttributeError` of `session.close()` when
`self._sessions[s]` is `None`.  A `KeyError` of `self._sessions[s]` is caught
(after the counter was already reset to 0, as in the source order). -/
def watchdog_entry (threshold : Nat) (st : WatchState) (s : Nat) (u : Option Int) :
    Except Unit WatchState :=
  if idleCond u then
    match lookupA st.counter s with
    | some c =>
      let c1 := c + 1
      if threshold ≤ c1 then
        let st1 : WatchState := { st with counter := insertA st.counter s 0 }
        match lookupA st1.sessions s with
        | none => .ok st1
        | some none => .error ()
        | some (some sess) =>
          .ok { st1 with
                  closed := st1.closed ++ [sess],
                  sessions := insertA st1.sessions s none,
                  uses := insertA st1.uses s none }
      else .ok { st with counter := insertA st.counter s c1 }
    | none => .ok { st with counter := insertA st.counter s 1 }
  else .ok { st with counter := eraseA st.counter s }

/-- Fold of `watchdog_entry` over the reference-count entries.  Python
iterates the live dict view, but each loop body mutates only the entry it has
already yielded, so folding over the snapshot taken at tick start is
equivalent. -/
def watchdog_scan (threshold : Nat) : List (Nat × Option Int) → WatchState → Except Unit WatchState
  | [], acc => .ok acc
  | (s, u) :: rest, acc =>
    match watchdog_entry threshold acc s u with
    | .ok acc1 => watchdog_scan threshold rest acc1
    | .error e => .error e

/-- One watchdog tick: the loop body executed after each `asyncio.sleep(10)`. -/
def watchdog_tick (threshold : Nat) (st : WatchState) : Except Unit WatchState :=
  watchdog_scan threshold st.uses st

/-- `n` consecutive watchdog ticks. -/
def watchdog_run (threshold : Nat) : Nat → WatchState → Except Unit WatchState
  | 0, st => .ok st
  | n + 1, st =>
    match watchdog_tick threshold st with
    | .ok st1 => watchdog_run threshold n st1
    | .error e => .error e

/-! ## Session pool (`Connector._get_session` / `_end_session`,
emby.py lines 83-117) -/

structure ConnSessions where
  sessions : List (Nat × Option Nat)
  uses : List (Nat × Option Int)
  nextId : Nat
deriving DecidableEq

/-- The body of `Connector._get_session` inside its `try:` block, for loop id
`lid`.  `constructOk = false` means the `AsyncSession(...)` constructor call
raises.  A `.error` result is an exception reaching the `except Exception`
clause: constructor failure, the `KeyError` of `self._session_uses[loop_id]`
when the key is absent, or the `TypeError` of `+= 1` on a `None` value. -/
def get_session_body (constructOk : Bool) (lid : Nat) (st : ConnSessions) :
    Except Unit (Option Nat × ConnSessions) :=
  match lookupA st.sessions lid with
  | some (some sess) =>
    match lookupA st.uses lid with
    | some (some u) => .ok (some sess, { st with uses := insertA st.uses lid (some (u + 1)) })
    | some none => .error ()
    | none => .error ()
  | _ =>
    if constructOk then
      .ok (some st.nextId,
        { st with
            sessions := insertA st.sessions lid (some st.nextId),
            uses := insertA st.uses lid (some 1),
            nextId := st.nextId + 1 })
    else .error ()

/-- `Connector._get_session`: the `try:` body guarded by
`except Exception as e: logger.error(...)`, which swallows every exception and
falls through to an implicit `return None`. -/
def get_session (constructOk : Bool) (lid : Nat) (st : ConnSessions) :
    Option Nat × ConnSessions :=
  match get_session_body constructOk lid st with
  | .ok r => r
  | .error _ => (none, st)

/-- `Connector._end_session`: `self._session_uses[loop_id] -= 1`, which raises
(`KeyError` / `TypeError`) when the entry is absent or `None`. -/
def end_session (lid : Nat) (st : ConnSessions) : Except Unit ConnSessions :=
  match lookupA st.uses lid with
  | some (some u) => .ok { st with uses := insertA st.uses lid (some (u - 1)) }
  | _ => .error ()

/-- The session-reference operations performed by `Connector.get` on its
success path with a token already held (`login_if_needed` performs no session
operation then): `get` itself acquires (`session = await self._get_session()`),
`Connector._req` acquires a second time (`session = await self._get_session()`
before its retry loop), and the `finally:` block releases exactly once
(`await self._end_session()`).  `delete`, `_post` and `getJson` have the same
shape. -/
def get_ref_trace (lid : Nat) (st : ConnSessions) : Except Unit ConnSessions :=
  let r1 := get_session true lid st
  let r2 := get_session true lid r1.2
  end_session lid r2.2

/-- Claim C1: the spec says a watchdog tick increments the idle counter of a
context exactly when its reference count is exactly zero and closes the session
after `timeout / pollInterval = 6` ticks.  The code tests `if u and u <= 0:`,
and a Python int `0` is falsy, so a reference count of exactly `0` takes the
`else` branch, which clears the counter.  Evaluating the code at the failing
input: a context whose reference count sits at exactly `0` for 12 consecutive
ticks is never closed, its counter never even becomes non-empty, although the
claim requires closure at tick 6. -/
theorem c1_watchdog_never_closes_refcount_zero :
    watchdog_run 6 12 ⟨[(0, some 7)], [(0, some 0)], [], []⟩ =
      .ok ⟨[(0, some 7)], [(0, some 0)], [], []⟩ := rfl

/-- Claim C2: the spec says each public request operation's session
acquisitions and releases balance, leaving the per-context reference count
unchanged after a completed call.  Evaluating the code at the failing input —
a completed `Connector.get` on a context whose session exists with reference
count 2 — the count ends at 3: `get` acquires, `_req` acquires again, and the
single `finally` release only undoes one of the two. -/
theorem c2_refcount_unbalanced :
    get_ref_trace 0 ⟨[(0, some 5)], [(0, some 2)], 6⟩ =
      .ok ⟨[(0, some 5)], [(0, some 3)], 6⟩ ∧
    ((some 3 : Option Int) ≠ some 2) := by
  exact ⟨rfl, by decide⟩

/-- Claim C8 counterexample: the claim says a failing transport construction
propagates the error to the caller of the acquisition.  At the concrete input
(empty pool, failing constructor) the body does raise, but `_get_session`
returns normally with `None` and an unchanged pool: the `except Exception`
clause swallows the error instead of propagating it. -/
theorem c8_construction_error_swallowed :
    get_session_body false 0 ⟨[], [], 0⟩ = .error () ∧
    get_session false 0 ⟨[], [], 0⟩ = (none, ⟨[], [], 0⟩) := by
  exact ⟨rfl, rfl⟩

/-- Claim C8 as amended: when transport construction raises during an
acquisition for a context with no live session, `_get_session` catches the
error, returns `None` to the caller, and registers no session and no reference
count for that context (creation is all-or-nothing). -/
theorem c8_construction_failure_atomic (lid : Nat) (st : ConnSessions)
    (h : lookupA st.sessions lid = none ∨ lookupA st.sessions lid = some none) :
    get_session false lid st = (none, st) := by
  unfold get_session get_session_body
  rcases h with h | h <;> rw [h] <;> rfl

/-- Witness for `c8_construction_failure_atomic` at a concrete empty pool. -/
theorem c8_construction_failure_atomic_witness :
    get_session false 0 ⟨[], [], 0⟩ = (none, ⟨[], [], 0⟩) :=
  c8_construction_failure_atomic 0 ⟨[], [], 0⟩ (Or.inl rfl)

/-! ## Request executor (`Connector._req` / `_process_resp`,
emby.py lines 189-222)

A transport attempt either raises `RequestsError` (`.err`) or yields a
`Response` with a status code (`.resp`).  A `curl_cffi` `Response` object
defines no truthiness override, so a returned response is always truthy; the
`not resp` test of `_process_resp` is therefore only true for an absent
(`None`) response, modelled as `Option.none`. -/

inductive Attempt where
  | err
  | resp (status : Nat)
deriving DecidableEq

/-- The outcome of `Connector._req`: a returned response (with the index of
the attempt that produced it), or a raised `RequestsError` message. -/
inductive ReqOutcome where
  | ok (idx status : Nat)
  | raised (msg : List Char)
deriving DecidableEq

/-- The message of `raise RequestsError("无法连接到服务器.")` that ends the
exhausted retry loop of `_req`. -/
def connFailedMsg : List Char := "无法连接到服务器.".data

/-- The message of `raise RequestsError("用户名密码错误")` on a 401 during a
login attempt. -/
def authInvalidMsg : List Char := "用户名密码错误".data

/-- A `_req` run together with its observable side effects: `issued` counts
the transport requests actually sent, `logins` the `self.login()` invocations
made by `_process_resp` (with `attempt_login` false and a configured username,
each such invocation performs one live authentication exchange). -/
structure ReqRun where
  outcome : ReqOutcome
  issued : Nat
  logins : Nat
deriving DecidableEq

/-- `Connector._process_resp`, for a response that is `None` (`Option.none`)
or carries a status code.  Returns (classified-as-success, login-invoked). -/
def process_resp (username : String) (resp : Option Nat) : Bool × Bool :=
  if (resp = none ∨ resp.getD 0 = 401) ∧ username ≠ "" then (false, true)
  else if resp = none then (false, false)
  else if resp.getD 0 = 502 ∨ resp.getD 0 = 503 ∨ resp.getD 0 = 504 then (false, false)
  else (true, false)

/-- The retry loop `for i in range(self.tries):` of `Connector._req`.
Arguments after `attempts`: current loop index `i`, remaining iterations,
requests issued so far, logins so far.  Each iteration sends the request
(`resp = await method(url)`); a `RequestsError` is logged and the loop
continues; otherwise a 401 with `self.attempt_login` set raises immediately;
otherwise `_process_resp` classifies, a success returns the response, a
failure retries.  Exhaustion raises the connection-failure error. -/
def req_loop_aux (username : String) (attempt_login : Bool) (attempts : Nat → Attempt) :
    Nat → Nat → Nat → Nat → ReqRun
  | _, 0, issued, logins => ⟨.raised connFailedMsg, issued, logins⟩
  | i, rem + 1, issued, logins =>
    match attempts i with
    | .err => req_loop_aux username attempt_login attempts (i + 1) rem (issued + 1) logins
    | .resp code =>
      if attempt_login ∧ code = 401 then ⟨.raised authInvalidMsg, issued + 1, logins⟩
      else
        let pr := process_resp username (some code)
        let logins1 := if pr.2 then logins + 1 else logins
        if pr.1 then ⟨.ok i code, issued + 1, logins1⟩
        else req_loop_aux username attempt_login attempts (i + 1) rem (issued + 1) logins1

/-- `Connector._req` restricted to its retry loop, entered with loop index 0
and `self.tries` remaining iterations. -/
def req_loop (username : String) (attempt_login : Bool) (tries : Nat)
    (attempts : Nat → Attempt) : ReqRun :=
  req_loop_aux username attempt_login attempts 0 tries 0 0

theorem req_loop_aux_all_err (username : String) (al : Bool) (attempts : Nat → Attempt)
    (h : ∀ j, attempts j = .err) :
    ∀ rem i issued logins,
      req_loop_aux username al attempts i rem issued logins =
        ⟨.raised connFailedMsg, issued + rem, logins⟩ := by
  intro rem
  induction rem with
  | zero => intro i issued logins; simp [req_loop_aux]
  | succ n ih =>
    intro i issued logins
    rw [req_loop_aux, h i, ih (i + 1) (issued + 1) logins]
    have hn : issued + 1 + n = issued + (n + 1) := by omega
    rw [hn]

theorem req_loop_aux_first_401_during_login (username : String) (attempts : Nat → Attempt) :
    ∀ d k rem issued logins,
      (∀ j, k ≤ j → j < k + d → attempts j = .err) →
      attempts (k + d) = .resp 401 →
      k + d < k + rem →
      req_loop_aux username true attempts k rem issued logins =
        ⟨.raised authInvalidMsg, issued + d + 1, logins⟩ := by
  intro d
  induction d with
  | zero =>
    intro k rem issued logins _ h401 hlt
    obtain ⟨r, rfl⟩ : ∃ r, rem = r + 1 := ⟨rem - 1, by omega⟩
    simp only [Nat.add_zero] at h401
    rw [req_loop_aux, h401]
    simp
  | succ n ih =>
    intro k rem issued logins herr h401 hlt
    obtain ⟨r, rfl⟩ : ∃ r, rem = r + 1 := ⟨rem - 1, by omega⟩
    rw [req_loop_aux, herr k (Nat.le_refl k) (by omega)]
    rw [ih (k + 1) r (issued + 1) logins (fun j hj1 hj2 => herr j (by omega) (by omega))
      (by rw [show k + 1 + n = k + (n + 1) by omega]; exact h401) (by omega)]
    have hn : issued + 1 + n + 1 = issued + (n + 1) + 1 := by omega
    rw [hn]

theorem req_loop_aux_issued_le (username : String) (al : Bool) (attempts : Nat → Attempt) :
    ∀ rem i issued logins,
      (req_loop_aux username al attempts i rem issued logins).issued ≤ issued + rem := by
  intro rem
  induction rem with
  | zero => intro i issued logins; simp [req_loop_aux]
  | succ n ih =>
    intro i issued logins
    rw [req_loop_aux]
    cases h : attempts i with
    | err =>
      have := ih (i + 1) (issued + 1) logins
      dsimp only
      omega
    | resp code =>
      dsimp only
      split
      · show issued + 1 ≤ issued + (n + 1)
        omega
      · split
        · show issued + 1 ≤ issued + (n + 1)
          omega
        · have := ih (i + 1) (issued + 1)
            (if (process_resp username (some code)).2 then logins + 1 else logins)
          omega

/-- Claim C3 counterexample: at a transport that always raises, with 3 tries
and requested path `/Users/X`, `_req` raises after exactly 3 attempts, but the
raised message is the fixed string `无法连接到服务器.`, which does not contain
the requested path, contradicting "a connection-failure error whose message
names the requested path". -/
theorem c3_message_does_not_name_path :
    req_loop "u" false 3 (fun _ => .err) = ⟨.raised connFailedMsg, 3, 0⟩ ∧
    ¬ ("/Users/X".data <:+: connFailedMsg) := by
  exact ⟨rfl, by decide⟩

/-- Claim C3 as amended: for every request whose every attempt fails
classification because the transport always raises, `_req` performs exactly
`self.tries` attempts and then raises a connection-failure error with a fixed
message (`无法连接到服务器.`) that does not name the requested path. -/
theorem c3_exhausts_tries_fixed_message (username : String) (al : Bool) (tries : Nat)
    (attempts : Nat → Attempt) (h : ∀ j, attempts j = .err) :
    req_loop username al tries attempts = ⟨.raised connFailedMsg, tries, 0⟩ ∧
    ¬ ("/Users/X".data <:+: connFailedMsg) := by
  refine ⟨?_, by decide⟩
  rw [req_loop, req_loop_aux_all_err username al attempts h tries 0 0 0]
  simp

/-- Witness for `c3_exhausts_tries_fixed_message` at a concrete always-failing
transport with 4 tries. -/
theorem c3_exhausts_tries_fixed_message_witness :
    req_loop "user" false 4 (fun _ => .err) = ⟨.raised connFailedMsg, 4, 0⟩ :=
  (c3_exhausts_tries_fixed_message "user" false 4 (fun _ => .err) (fun _ => rfl)).1

/-- Claim C4: while a login is in progress (`self.attempt_login` set), the
first HTTP 401 response makes `_req` raise `RequestsError("用户名密码错误")`
immediately: no further attempt is issued after it, no login is triggered by
the classification path, and the error propagates (the raised outcome is the
result of the call).  Attempts before the 401 are transport errors. -/
theorem c4_login_401_raises_immediately (username : String) (tries i : Nat)
    (attempts : Nat → Attempt) (hi : i < tries)
    (h401 : attempts i = .resp 401) (hbefore : ∀ j, j < i → attempts j = .err) :
    req_loop username true tries attempts = ⟨.raised authInvalidMsg, i + 1, 0⟩ := by
  rw [req_loop]
  have := req_loop_aux_first_401_during_login username attempts i 0 tries 0 0
    (fun j hj1 hj2 => hbefore j (by omega)) (by simpa using h401) (by omega)
  simpa using this

/-- Witness for `c4_login_401_raises_immediately`: an immediate 401 with 3
tries raises after a single attempt with no login. -/
theorem c4_login_401_raises_immediately_witness :
    req_loop "u" true 3 (fun _ => .resp 401) = ⟨.raised authInvalidMsg, 1, 0⟩ :=
  c4_login_401_raises_immediately "u" 3 0 (fun _ => .resp 401) (by omega) rfl
    (fun j hj => absurd hj (by omega))

/-- Claim C5: on a normal request (login not in progress) with a configured
username, a single 401 on the first attempt triggers exactly one `login()`
invocation (one live re-authentication) and exactly one retry of the request,
which then succeeds; and for every input whatsoever the number of attempts is
bounded by `self.tries`, so repeated 401 responses can never loop unboundedly. -/
theorem c5_single_401_one_relogin_one_retry (username : String) (tries : Nat)
    (attempts : Nat → Attempt) (hu : username ≠ "") (ht : 2 ≤ tries)
    (h0 : attempts 0 = .resp 401) (h1 : attempts 1 = .resp 200) :
    req_loop username false tries attempts = ⟨.ok 1 200, 2, 1⟩ ∧
    ∀ (un : String) (al : Bool) (tr : Nat) (atts : Nat → Attempt),
      (req_loop un al tr atts).issued ≤ tr := by
  constructor
  · obtain ⟨r, rfl⟩ : ∃ r, tries = r + 2 := ⟨tries - 2, by omega⟩
    simp [req_loop, req_loop_aux, h0, h1, process_resp, hu]
  · intro un al tr atts
    have := req_loop_aux_issued_le un al atts tr 0 0 0
    simpa using this

/-- Witness for `c5_single_401_one_relogin_one_retry` at a concrete attempt
sequence 401-then-200 with 3 tries. -/
theorem c5_single_401_one_relogin_one_retry_witness :
    req_loop "u" false 3 (fun i => if i = 0 then .resp 401 else .resp 200) =
      ⟨.ok 1 200, 2, 1⟩ :=
  (c5_single_401_one_relogin_one_retry "u" 3 (fun i => if i = 0 then .resp 401 else .resp 200)
    (by decide) (by omega) rfl rfl).1

/-- Claim C10: with no configured username, `_process_resp` classifies every
present response whose status is not 502, 503 or 504 — including a 401 — as a
success without invoking `login()`, and `_req` returns that response to the
caller on the first attempt. -/
theorem c10_no_username_all_statuses_succeed (code tries : Nat) (attempts : Nat → Attempt)
    (h2 : code ≠ 502) (h3 : code ≠ 503) (h4 : code ≠ 504)
    (ht : 1 ≤ tries) (h0 : attempts 0 = .resp code) :
    process_resp "" (some code) = (true, false) ∧
    req_loop "" false tries attempts = ⟨.ok 0 code, 1, 0⟩ := by
  have hp : process_resp "" (some code) = (true, false) := by
    simp [process_resp, h2, h3, h4]
  refine ⟨hp, ?_⟩
  obtain ⟨r, rfl⟩ : ∃ r, tries = r + 1 := ⟨tries - 1, by omega⟩
  rw [req_loop, req_loop_aux, h0]
  simp [hp]

/-- Witness for `c10_no_username_all_statuses_succeed` at status 401 with one
try. -/
theorem c10_no_username_all_statuses_succeed_witness :
    process_resp "" (some 401) = (true, false) ∧
    req_loop "" false 1 (fun _ => .resp 401) = ⟨.ok 0 401, 1, 0⟩ :=
  c10_no_username_all_statuses_succeed 401 1 (fun _ => .resp 401)
    (by omega) (by omega) (by omega) (by omega) rfl

/-! ## Auth manager and credential store
(`Connector.login_if_needed` / `Connector.login`, emby.py lines 130-187)

The auth fields of the connector.  `token = ""` plays Python's falsy token
(`None` or the empty string); `api_key` is kept in sync with `token` by the
code on the paths that assign it. -/

structure Auth where
  token : String
  userid : Option String
  api_key : String
deriving DecidableEq

/-- The possible outcomes of reading the credential-cache file in
`login_if_needed`, enumerating exactly the failure classes its
`except (json.JSONDecodeError, OSError, KeyError)` clause catches:
`missing` is `cache_file.exists()` returning `False`, `ioError` an `OSError`
from `read_text`, `malformed` a `json.JSONDecodeError` from `json.loads`,
and `entry tok uid` a parsed JSON object whose `token` / `userid` keys are
present (`some`) or absent (`none`, raising `KeyError` on access). -/
inductive CacheRead where
  | missing
  | ioError
  | malformed
  | entry (token : Option String) (userid : Option String)
deriving DecidableEq

/-- Result of `Connector.login_if_needed`: the auth state afterwards, whether
the credential store was touched (the `mkdir`/`exists`/read sequence ran), and
whether `self.login()` was invoked at the end (`if not self.token: return
await self.login()`). -/
structure EnsureResult where
  state : Auth
  touched_store : Bool
  live_login : Bool
deriving DecidableEq

/-- `Connector.login_if_needed`.  With a token already held both `if not
self.token:` guards fail, so neither the cache nor `login()` is touched.
Otherwise the cache is consulted; assignments happen in source order
`self.token = data["token"]`, `self.userid = data["userid"]`,
`self.api_key = self.token`, so a `KeyError` on `userid` leaves a
half-adopted state with the token set but `userid`/`api_key` untouched. -/
def login_if_needed (st : Auth) (cache : CacheRead) : EnsureResult :=
  if st.token = "" then
    let st1 :=
      match cache with
      | .missing => st
      | .ioError => st
      | .malformed => st
      | .entry tok uid =>
        match tok with
        | none => st
        | some t =>
          match uid with
          | none => { st with token := t }
          | some u => { token := t, userid := some u, api_key := t }
    ⟨st1, true, decide (st1.token = "")⟩
  else
    ⟨st, false, false⟩

/-- The state mutation of a successful `Connector.login` response:
`self.token = data.get("AccessToken", "")`, `self.userid =
data.get("User", {}).get("Id")`, `self.api_key = self.token`. -/
def login_adopt (accessToken : Option String) (userId : Option String) : Auth :=
  let t := accessToken.getD ""
  { token := t, userid := userId, api_key := t }

/-- A persisted credential entry, the JSON object written by `login`. -/
structure CacheData where
  token : String
  userid : Option String
deriving DecidableEq

/-- The tail of `Connector.login` after a successful authentication response:
adopt the returned token and user id, then attempt the cache write inside
`try: ... except OSError: logger.debug(...)`.  `saveOk = false` models the
swallowed `OSError`; the returned `Option CacheData` is what reached disk. -/
def login_finish (accessToken userId : Option String) (saveOk : Bool) :
    Auth × Option CacheData :=
  let st1 := login_adopt accessToken userId
  (st1, if saveOk then some ⟨st1.token, st1.userid⟩ else none)

/-- Claim C6: `login_if_needed` returns immediately, touching neither the
credential store nor the backend, when a token is held; with no token and
a readable cached entry carrying a non-empty token and a user id, it adopts
both without a live login; and in general it invokes `login()` exactly when
no token resulted from the held-token check and the cache step. -/
theorem c6_login_if_needed (st : Auth) (cache : CacheRead) (t u : String)
    (htok : st.token ≠ "") (ht : t ≠ "") :
    login_if_needed st cache = ⟨st, false, false⟩ ∧
    (∀ st2 : Auth, st2.token = "" →
      login_if_needed st2 (.entry (some t) (some u)) = ⟨⟨t, some u, t⟩, true, false⟩) ∧
    (∀ (st3 : Auth) (c : CacheRead),
      (login_if_needed st3 c).live_login = true ↔ (login_if_needed st3 c).state.token = "") := by
  refine ⟨?_, ?_, ?_⟩
  · simp [login_if_needed, htok]
  · intro st2 h2
    simp [login_if_needed, h2, ht]
  · intro st3 c
    by_cases h3 : st3.token = ""
    · simp only [login_if_needed, if_pos h3]
      constructor
      · intro h; exact of_decide_eq_true h
      · intro h; exact decide_eq_true h
    · simp [login_if_needed, h3]

/-- Witness for `c6_login_if_needed`: a held token is returned untouched, and
a cached entry is adopted without a live login. -/
theorem c6_login_if_needed_witness :
    login_if_needed ⟨"T", none, "T"⟩ .missing = ⟨⟨"T", none, "T"⟩, false, false⟩ ∧
    login_if_needed ⟨"", none, ""⟩ (.entry (some "X") (some "Y")) =
      ⟨⟨"X", some "Y", "X"⟩, true, false⟩ :=
  ⟨(c6_login_if_needed ⟨"T", none, "T"⟩ .missing "X" "Y" (by decide) (by decide)).1,
   (c6_login_if_needed ⟨"T", none, "T"⟩ .missing "X" "Y" (by decide) (by decide)).2.1
     ⟨"", none, ""⟩ rfl⟩

/-- Claim C7 counterexample: a readable cache file whose JSON object has a
`token` key but no `userid` key is not treated as a cache miss: starting from
an empty auth state, the load adopts the cached token (`KeyError` is raised
only after `self.token = data["token"]` executed), leaves `userid` and
`api_key` unset, and suppresses the live login — the connector does not
"proceed without a cached token" as the claim requires. -/
theorem c7_missing_userid_not_a_cache_miss :
    login_if_needed ⟨"", none, ""⟩ (.entry (some "T") none) =
      ⟨⟨"T", none, ""⟩, true, false⟩ := by
  decide

/-- Claim C7 as amended: credential-cache reads never raise for the failure
classes the handler enumerates — a missing file, an unreadable file
(`OSError`), malformed JSON, and a missing `token` key are all treated as a
cache miss, leaving the token unchanged; a missing `userid` key with a present
`token` key instead adopts the token (and only it) without a live login; and a
failed cache save after a successful login is swallowed, leaving the in-memory
auth state exactly as a successful save would. -/
theorem c7_cache_errors_swallowed (st : Auth) (cache : CacheRead) (uid : Option String)
    (hmiss : cache = .missing ∨ cache = .ioError ∨ cache = .malformed ∨
      cache = .entry none uid) :
    (login_if_needed st cache).state.token = st.token ∧
    (∀ st4 : Auth, st4.token = "" → ∀ t : String,
      (login_if_needed st4 (.entry (some t) none)).state = { st4 with token := t } ∧
      (login_if_needed st4 (.entry (some t) none)).live_login = decide (t = "")) ∧
    (∀ (at1 ui1 : Option String), (login_finish at1 ui1 false).1 = (login_finish at1 ui1 true).1) := by
  refine ⟨?_, ?_, fun at1 ui1 => rfl⟩
  · by_cases h : st.token = ""
    · rcases hmiss with rfl | rfl | rfl | rfl <;> simp [login_if_needed, h]
    · simp [login_if_needed, h]
  · intro st4 h4 t
    constructor
    · simp [login_if_needed, h4]
    · simp [login_if_needed, h4]

/-- Witness for `c7_cache_errors_swallowed`: a malformed cache file leaves an
empty token in place, the missing-userid entry adopts only the token, and a
failed save equals a successful save in memory. -/
theorem c7_cache_errors_swallowed_witness :
    (login_if_needed ⟨"", none, ""⟩ .malformed).state.token = "" ∧
    (login_if_needed ⟨"", none, ""⟩ (.entry (some "T") none)).state =
      { token := "T", userid := none, api_key := "" } ∧
    (login_finish (some "T") (some "U") false).1 = (login_finish (some "T") (some "U") true).1 :=
  ⟨(c7_cache_errors_swallowed ⟨"", none, ""⟩ .malformed none (Or.inr (Or.inr (Or.inl rfl)))).1,
   ((c7_cache_errors_swallowed ⟨"", none, ""⟩ .malformed none
      (Or.inr (Or.inr (Or.inl rfl)))).2.1 ⟨"", none, ""⟩ rfl "T").1,
   (c7_cache_errors_swallowed ⟨"", none, ""⟩ .malformed none
      (Or.inr (Or.inr (Or.inl rfl)))).2.2 (some "T") (some "U")⟩

/-! ## URL construction (`Connector.get_url`, emby.py lines 288-307)

Strings are embedded as `List Char` here.  `get_url` builds
`urlunparse((scheme, netloc, path, "", "\x7bparams\x7d", "")).format(UserId=...,
ApiKey=..., params=urlencode(query))` and strips one trailing `?`. -/

abbrev Str := List Char

/-- Boolean prefix test, as in Python slice comparisons and `str.format` /
`str.replace` pattern matching. -/
def isPre : Str → Str → Bool
  | [], _ => true
  | _ :: _, [] => false
  | p :: ps, c :: cs => p == c && isPre ps cs

/-- The characters `urllib.parse.quote_plus` leaves unencoded with `safe=''`:
ASCII letters, ASCII digits, and `_ . - ~`. -/
def safeChar (c : Char) : Bool :=
  c.isAlphanum || c == '_' || c == '.' || c == '-' || c == '~'

/-- UTF-8 encoding of one character, as byte values. -/
def utf8Bytes (c : Char) : List Nat :=
  let n := c.toNat
  if n < 128 then [n]
  else if n < 2048 then [192 + n / 64, 128 + n % 64]
  else if n < 65536 then [224 + n / 4096, 128 + n / 64 % 64, 128 + n % 64]
  else [240 + n / 262144, 128 + n / 4096 % 64, 128 + n / 64 % 64, 128 + n % 64]

/-- Uppercase hexadecimal digit. -/
def hexDigit (n : Nat) : Char :=
  if n < 10 then Char.ofNat (48 + n) else Char.ofNat (55 + n)

/-- The `%XX` escape of one byte. -/
def pctByte (b : Nat) : Str := ['%', hexDigit (b / 16), hexDigit (b % 16)]

/-- `urllib.parse.quote_plus(·, safe='')` on one character: safe characters
kept, the space becomes `+`, everything else is percent-encoded byte by byte. -/
def quotePlusChar (c : Char) : Str :=
  if safeChar c then [c]
  else if c == ' ' then ['+']
  else (utf8Bytes c).flatMap pctByte

/-- `urllib.parse.quote_plus(s, safe='')`. -/
def quotePlus (s : Str) : Str := s.flatMap quotePlusChar

/-- `urllib.parse.urlencode(query)` over the query pairs in insertion order:
`"&".join(quote_plus(k) + "=" + quote_plus(v) for k, v in query)`. -/
def urlencode : List (Str × Str) → Str
  | [] => []
  | [p] => quotePlus p.1 ++ '=' :: quotePlus p.2
  | p :: q => (quotePlus p.1 ++ '=' :: quotePlus p.2) ++ '&' :: urlencode q

/-- The three `str.format` fields occurring in the connector's URL templates. -/
def fieldUserId : Str := "\x7bUserId\x7d".data

def fieldApiKey : Str := "\x7bApiKey\x7d".data

def fieldParams : Str := "\x7bparams\x7d".data

/-- One left-to-right pass of `str.format` over a template whose only fields
are `UserId`, `ApiKey` and `params` — the only fields in the URLs the
connector builds (any other field would make `str.format` raise; plain text is
copied through).  Replacement text is not rescanned, as in `str.format`.  The
fuel argument bounds the scanned length; every step consumes at least one
character, so a fuel of `s.length` (supplied by `subst_fields`) always
suffices and the `0`-fuel fallback is unreachable there. -/
def subst_fields_aux (uid apikey params : Str) : Nat → Str → Str
  | 0, s => s
  | _ + 1, [] => []
  | fuel + 1, c :: rest =>
    if isPre fieldUserId (c :: rest) then
      uid ++ subst_fields_aux uid apikey params fuel ((c :: rest).drop 8)
    else if isPre fieldApiKey (c :: rest) then
      apikey ++ subst_fields_aux uid apikey params fuel ((c :: rest).drop 8)
    else if isPre fieldParams (c :: rest) then
      params ++ subst_fields_aux uid apikey params fuel ((c :: rest).drop 8)
    else c :: subst_fields_aux uid apikey params fuel rest

/-- `template.format(UserId=uid, ApiKey=apikey, params=params)`. -/
def subst_fields (uid apikey params : Str) (s : Str) : Str :=
  subst_fields_aux uid apikey params s.length s

/-- Python `str.replace(pat, repl)` for a non-empty pattern: leftmost,
non-overlapping, replacements not rescanned.  Fuel as in `subst_fields_aux`. -/
def str_replace_aux (pat repl : Str) : Nat → Str → Str
  | 0, s => s
  | _ + 1, [] => []
  | fuel + 1, c :: rest =>
    if isPre pat (c :: rest) then
      repl ++ str_replace_aux pat repl fuel ((c :: rest).drop pat.length)
    else c :: str_replace_aux pat repl fuel rest

/-- `s.replace(pat, repl)`. -/
def str_replace (pat repl s : Str) : Str := str_replace_aux pat repl s.length s

/-- A parsed base URL as `get_url` uses it: `self.url` / `self.urlremote`
expose `.scheme` and `.netloc`. -/
structure UrlParts where
  scheme : Str
  netloc : Str
deriving DecidableEq

/-- The netloc/path part of `urlunparse((scheme, netloc, path, "", query, ""))`
as in CPython: `//` plus the netloc is prepended when a netloc is present (or
the path itself starts with `//`), and a `/` is inserted before a relative
path under a netloc. -/
def urlunparse_netpath (netloc path : Str) : Str :=
  if netloc ≠ [] ∨ (path ≠ [] ∧ isPre ['/', '/'] path = true) then
    '/' :: '/' :: (netloc ++ (if path ≠ [] ∧ isPre ['/'] path = false then '/' :: path else path))
  else path

/-- The scheme/netloc/path part of the same `urlunparse` call: a non-empty
scheme is prepended with `:`. -/
def urlunparse_base (scheme netloc path : Str) : Str :=
  if scheme ≠ [] then scheme ++ ':' :: urlunparse_netpath netloc path
  else urlunparse_netpath netloc path

/-- The full `urlunparse` template of `get_url`: the params and fragment
components are empty and skipped, the query component is the literal field
`params` (non-empty), so it is always appended after `?`. -/
def urlunparse_t (scheme netloc path : Str) : Str :=
  urlunparse_base scheme netloc path ++ '?' :: fieldParams

/-- The connector fields read by `get_url`.  A Python `None` / empty value of
`userid` or `api_key` is the empty string; `urlremote` is `none` when unset
(`self.urlremote or self.url` then falls back to `self.url`). -/
structure UrlCfg where
  url : UrlParts
  urlremote : Option UrlParts
  userid : Str
  api_key : Str
deriving DecidableEq

/-- `Connector.get_url`.  `userId = []` models a falsy argument (the Python
default `None`), falling back to `self.userid`; `pass_uid` adds the effective
user id to the query; `remote` selects `self.urlremote or self.url`;
`websocket` rewrites the scheme with `.replace("http", "ws")`; the template is
formatted by `subst_fields` and one trailing `?` is stripped
(`url[:-1] if url[-1] == "?" else url`; the template always contains `?`, so
`url` is never empty). -/
def get_url (cfg : UrlCfg) (path : Str) (websocket remote : Bool)
    (userId : Str) (pass_uid : Bool) (query : List (Str × Str)) : Str :=
  let uid := if userId ≠ [] then userId else cfg.userid
  let query1 := if pass_uid then query ++ [("userId".data, uid)] else query
  let base := if remote then cfg.urlremote.getD cfg.url else cfg.url
  let scheme := if websocket then str_replace "http".data "ws".data base.scheme else base.scheme
  let url := subst_fields uid cfg.api_key (urlencode query1) (urlunparse_t scheme base.netloc path)
  if url.getLast? = some '?' then url.dropLast else url

theorem subst_fields_aux_fuel (uid apikey params : Str) :
    ∀ (f1 : Nat) (s : Str) (f2 : Nat), s.length ≤ f1 → s.length ≤ f2 →
      subst_fields_aux uid apikey params f1 s = subst_fields_aux uid apikey params f2 s := by
  intro f1
  induction f1 with
  | zero =>
    intro s f2 h1 _
    have hs : s = [] := List.length_eq_zero.mp (Nat.le_zero.mp h1)
    subst hs
    cases f2 <;> rfl
  | succ n ih =>
    intro s f2 h1 h2
    cases s with
    | nil => cases f2 <;> rfl
    | cons c rest =>
      cases f2 with
      | zero => simp at h2
      | succ m =>
        rw [subst_fields_aux, subst_fields_aux]
        have hlen : ((c :: rest).drop 8).length ≤ rest.length := by
          simp [List.length_drop]
        have hr : rest.length ≤ n := by simpa using h1
        have hr2 : rest.length ≤ m := by simpa using h2
        split_ifs <;>
          first
          | (congr 1; exact ih _ _ (le_trans hlen hr) (le_trans hlen hr2))
          | (congr 1; exact ih _ _ hr hr2)

theorem subst_fields_cons (u a e : Str) (c : Char) (rest : Str) :
    subst_fields u a e (c :: rest) =
      if isPre fieldUserId (c :: rest) then u ++ subst_fields u a e ((c :: rest).drop 8)
      else if isPre fieldApiKey (c :: rest) then a ++ subst_fields u a e ((c :: rest).drop 8)
      else if isPre fieldParams (c :: rest) then e ++ subst_fields u a e ((c :: rest).drop 8)
      else c :: subst_fields u a e rest := by
  show subst_fields_aux u a e (rest.length + 1) (c :: rest) = _
  rw [subst_fields_aux]
  have hlen : ((c :: rest).drop 8).length ≤ rest.length := by
    simp [List.length_drop]
  split_ifs <;>
    first
    | (congr 1;
       exact subst_fields_aux_fuel u a e rest.length _ _ hlen (Nat.le_refl _))
    | rfl

theorem isPre_head_brace (pat : Str) (hpat : pat = fieldUserId ∨ pat = fieldApiKey ∨ pat = fieldParams)
    (c : Char) (rest : Str) (h : isPre pat (c :: rest) = true) : c = '\x7b' := by
  rcases hpat with rfl | rfl | rfl
  · rw [show (fieldUserId : Str) = '\x7b' :: fieldUserId.tail from by decide, isPre,
      Bool.and_eq_true, beq_iff_eq] at h
    exact h.1.symm
  · rw [show (fieldApiKey : Str) = '\x7b' :: fieldApiKey.tail from by decide, isPre,
      Bool.and_eq_true, beq_iff_eq] at h
    exact h.1.symm
  · rw [show (fieldParams : Str) = '\x7b' :: fieldParams.tail from by decide, isPre,
      Bool.and_eq_true, beq_iff_eq] at h
    exact h.1.symm

theorem subst_fields_cons_copy (u a e : Str) (c : Char) (rest : Str) (hc : c ≠ '\x7b') :
    subst_fields u a e (c :: rest) = c :: subst_fields u a e rest := by
  rw [subst_fields_cons]
  have h1 : isPre fieldUserId (c :: rest) = false := by
    cases h : isPre fieldUserId (c :: rest)
    · rfl
    · exact absurd (isPre_head_brace _ (Or.inl rfl) c rest h) hc
  have h2 : isPre fieldApiKey (c :: rest) = false := by
    cases h : isPre fieldApiKey (c :: rest)
    · rfl
    · exact absurd (isPre_head_brace _ (Or.inr (Or.inl rfl)) c rest h) hc
  have h3 : isPre fieldParams (c :: rest) = false := by
    cases h : isPre fieldParams (c :: rest)
    · rfl
    · exact absurd (isPre_head_brace _ (Or.inr (Or.inr rfl)) c rest h) hc
  rw [h1, h2, h3]
  simp

theorem subst_fields_append_of_no_brace (u a e : Str) :
    ∀ (p s : Str), '\x7b' ∉ p →
      subst_fields u a e (p ++ s) = p ++ subst_fields u a e s := by
  intro p
  induction p with
  | nil => intro s _; rfl
  | cons c p' ih =>
    intro s hp
    have hc : c ≠ '\x7b' := by
      intro h
      exact hp (by simp [h])
    rw [List.cons_append, subst_fields_cons_copy u a e c (p' ++ s) hc,
      ih s (fun h => hp (List.mem_cons_of_mem c h))]
    rfl

theorem mem_subst_fields_aux (u a e : Str) :
    ∀ (fuel : Nat) (s : Str) (x : Char), x ∈ subst_fields_aux u a e fuel s →
      x ∈ s ∨ x ∈ u ∨ x ∈ a ∨ x ∈ e := by
  intro fuel
  induction fuel with
  | zero => intro s x h; exact Or.inl h
  | succ n ih =>
    intro s x h
    cases s with
    | nil => simp [subst_fields_aux] at h
    | cons c rest =>
      rw [subst_fields_aux] at h
      split_ifs at h
      · rcases List.mem_append.mp h with hx | hx
        · exact Or.inr (Or.inl hx)
        · rcases ih _ x hx with hx | hx
          · exact Or.inl (List.mem_of_mem_drop hx)
          · exact Or.inr hx
      · rcases List.mem_append.mp h with hx | hx
        · exact Or.inr (Or.inr (Or.inl hx))
        · rcases ih _ x hx with hx | hx
          · exact Or.inl (List.mem_of_mem_drop hx)
          · exact Or.inr hx
      · rcases List.mem_append.mp h with hx | hx
        · exact Or.inr (Or.inr (Or.inr hx))
        · rcases ih _ x hx with hx | hx
          · exact Or.inl (List.mem_of_mem_drop hx)
          · exact Or.inr hx
      · rcases List.mem_cons.mp h with rfl | hx
        · exact Or.inl (List.mem_cons_self _ _)
        · rcases ih rest x hx with hx | hx
          · exact Or.inl (List.mem_cons_of_mem _ hx)
          · exact Or.inr hx

theorem mem_subst_fields (u a e s : Str) (x : Char) (h : x ∈ subst_fields u a e s) :
    x ∈ s ∨ x ∈ u ∨ x ∈ a ∨ x ∈ e :=
  mem_subst_fields_aux u a e s.length s x h

theorem mem_str_replace_aux (pat repl : Str) :
    ∀ (fuel : Nat) (s : Str) (x : Char), x ∈ str_replace_aux pat repl fuel s →
      x ∈ s ∨ x ∈ repl := by
  intro fuel
  induction fuel with
  | zero => intro s x h; exact Or.inl h
  | succ n ih =>
    intro s x h
    cases s with
    | nil => simp [str_replace_aux] at h
    | cons c rest =>
      rw [str_replace_aux] at h
      split_ifs at h
      · rcases List.mem_append.mp h with hx | hx
        · exact Or.inr hx
        · rcases ih _ x hx with hx | hx
          · exact Or.inl (List.mem_of_mem_drop hx)
          · exact Or.inr hx
      · rcases List.mem_cons.mp h with rfl | hx
        · exact Or.inl (List.mem_cons_self _ _)
        · rcases ih rest x hx with hx | hx
          · exact Or.inl (List.mem_cons_of_mem _ hx)
          · exact Or.inr hx

theorem mem_str_replace (pat repl s : Str) (x : Char) (h : x ∈ str_replace pat repl s) :
    x ∈ s ∨ x ∈ repl :=
  mem_str_replace_aux pat repl s.length s x h

theorem isPre_append_left : ∀ (pat p t : Str), isPre pat p = true → isPre pat (p ++ t) = true
  | [], _, _, _ => rfl
  | x :: ps, [], _, h => by simp [isPre] at h
  | x :: ps, y :: p', t, h => by
    rw [isPre, Bool.and_eq_true] at h
    rw [List.cons_append, isPre, Bool.and_eq_true]
    exact ⟨h.1, isPre_append_left ps p' t h.2⟩

theorem isPre_length_le_of_append_q : ∀ (pat p r : Str), isPre pat (p ++ '?' :: r) = true →
    '?' ∉ pat → pat.length ≤ p.length
  | [], _, _, _, _ => Nat.zero_le _
  | x :: ps, [], r, h, hq => by
    rw [List.nil_append, isPre, Bool.and_eq_true, beq_iff_eq] at h
    refine absurd ?_ hq
    rw [← h.1]
    exact List.mem_cons_self x ps
  | x :: ps, y :: p', r, h, hq => by
    rw [List.cons_append, isPre, Bool.and_eq_true] at h
    have := isPre_length_le_of_append_q ps p' r h.2 (fun hm => hq (List.mem_cons_of_mem _ hm))
    simpa using this

theorem isPre_of_append_of_length_le : ∀ (pat p t : Str), isPre pat (p ++ t) = true →
    pat.length ≤ p.length → isPre pat p = true
  | [], _, _, _, _ => rfl
  | x :: ps, [], _, _, hl => by simp at hl
  | x :: ps, y :: p', t, h, hl => by
    rw [List.cons_append, isPre, Bool.and_eq_true] at h
    rw [isPre, Bool.and_eq_true]
    exact ⟨h.1, isPre_of_append_of_length_le ps p' t h.2 (by simpa using hl)⟩

theorem utf8Bytes_lt_256 (c : Char) : ∀ b ∈ utf8Bytes c, b < 256 := by
  have hv : c.toNat < 1114112 := by
    rcases c.valid with h | h
    · exact Nat.lt_trans h (by norm_num)
    · exact h.2
  intro b hb
  simp only [utf8Bytes] at hb
  split_ifs at hb <;> simp at hb <;> omega

theorem hexDigit_ne_question (n : Nat) (h : n < 16) : hexDigit n ≠ '?' := by
  interval_cases n <;> decide

theorem pctByte_no_question (b : Nat) (hb : b < 256) : '?' ∉ pctByte b := by
  intro h
  rw [pctByte] at h
  rcases List.mem_cons.mp h with h | h
  · exact absurd h (by decide)
  · rcases List.mem_cons.mp h with h | h
    · exact hexDigit_ne_question (b / 16) (by omega) h.symm
    · rcases List.mem_cons.mp h with h | h
      · exact hexDigit_ne_question (b % 16) (by omega) h.symm
      · simp at h

theorem quotePlusChar_no_question (c : Char) : '?' ∉ quotePlusChar c := by
  intro h
  unfold quotePlusChar at h
  split_ifs at h with h1 h2
  · have hc := List.mem_singleton.mp h
    rw [← hc] at h1
    exact absurd h1 (by decide)
  · simp at h
  · rcases List.exists_of_mem_flatMap h with ⟨b, hb, hmem⟩
    exact pctByte_no_question b (utf8Bytes_lt_256 c b hb) hmem

theorem quotePlus_no_question (s : Str) : '?' ∉ quotePlus s := by
  intro h
  rcases List.exists_of_mem_flatMap h with ⟨c, _, hc⟩
  exact quotePlusChar_no_question c hc

theorem urlencode_no_question : ∀ q, '?' ∉ urlencode q
  | [] => by simp [urlencode]
  | [p] => by
    intro h
    rw [urlencode] at h
    rcases List.mem_append.mp h with h | h
    · exact quotePlus_no_question _ h
    · rcases List.mem_cons.mp h with h | h
      · exact absurd h (by decide)
      · exact quotePlus_no_question _ h
  | p :: q1 :: q2 => by
    intro h
    have he : urlencode (p :: q1 :: q2) =
        (quotePlus p.1 ++ '=' :: quotePlus p.2) ++ '&' :: urlencode (q1 :: q2) := rfl
    rw [he] at h
    rcases List.mem_append.mp h with h | h
    · rcases List.mem_append.mp h with h | h
      · exact quotePlus_no_question _ h
      · rcases List.mem_cons.mp h with h | h
        · exact absurd h (by decide)
        · exact quotePlus_no_question _ h
    · rcases List.mem_cons.mp h with h | h
      · exact absurd h (by decide)
      · exact urlencode_no_question (q1 :: q2) h

theorem fieldParams_eq : fieldParams = ['\x7b', 'p', 'a', 'r', 'a', 'm', 's', '\x7d'] := by
  decide

theorem subst_fields_params_only (u a e : Str) : subst_fields u a e fieldParams = e := by
  rw [fieldParams_eq, subst_fields_cons]
  rw [show isPre fieldUserId ['\x7b', 'p', 'a', 'r', 'a', 'm', 's', '\x7d'] = false from by decide]
  rw [show isPre fieldApiKey ['\x7b', 'p', 'a', 'r', 'a', 'm', 's', '\x7d'] = false from by decide]
  rw [show isPre fieldParams ['\x7b', 'p', 'a', 'r', 'a', 'm', 's', '\x7d'] = true from by decide]
  simp [List.drop]
  rfl

theorem subst_fields_q_params (u a e : Str) :
    subst_fields u a e ('?' :: fieldParams) = '?' :: e := by
  rw [subst_fields_cons_copy u a e '?' fieldParams (by decide), subst_fields_params_only]

theorem subst_fields_splitq (u a e : Str) :
    ∀ (n : Nat) (s : Str), s.length ≤ n →
      subst_fields u a e (s ++ '?' :: fieldParams) = subst_fields u a e s ++ '?' :: e := by
  intro n
  induction n with
  | zero =>
    intro s hs
    have hnil : s = [] := List.length_eq_zero.mp (Nat.le_zero.mp hs)
    subst hnil
    rw [List.nil_append, subst_fields_q_params]
    rfl
  | succ m ih =>
    intro s hs
    cases s with
    | nil =>
      rw [List.nil_append, subst_fields_q_params]
      rfl
    | cons c s' =>
      have hs' : s'.length ≤ m := by simpa using hs
      have hcons : (c :: s') ++ '?' :: fieldParams = c :: (s' ++ '?' :: fieldParams) := rfl
      rw [hcons, subst_fields_cons u a e c (s' ++ '?' :: fieldParams),
        subst_fields_cons u a e c s']
      by_cases h1 : isPre fieldUserId (c :: (s' ++ '?' :: fieldParams)) = true
      · have hlen : fieldUserId.length ≤ (c :: s').length :=
          isPre_length_le_of_append_q fieldUserId (c :: s') fieldParams h1 (by decide)
        have h8 : 8 ≤ (c :: s').length := by
          rw [show (fieldUserId : Str).length = 8 from by decide] at hlen
          exact hlen
        have hpre : isPre fieldUserId (c :: s') = true :=
          isPre_of_append_of_length_le fieldUserId (c :: s') ('?' :: fieldParams) h1 hlen
        rw [if_pos h1, if_pos hpre]
        have hd0 := @List.drop_append_of_le_length Char (c :: s') ('?' :: fieldParams) 8 h8
        rw [List.cons_append] at hd0
        rw [hd0]
        have hdl : ((c :: s').drop 8).length ≤ m := by
          simp only [List.length_drop, List.length_cons]
          omega
        rw [ih ((c :: s').drop 8) hdl, List.append_assoc]
      · rw [if_neg h1]
        have h1r : ¬ isPre fieldUserId (c :: s') = true := fun hx =>
          h1 (isPre_append_left fieldUserId (c :: s') ('?' :: fieldParams) hx)
        rw [if_neg h1r]
        by_cases h2 : isPre fieldApiKey (c :: (s' ++ '?' :: fieldParams)) = true
        · have hlen : fieldApiKey.length ≤ (c :: s').length :=
            isPre_length_le_of_append_q fieldApiKey (c :: s') fieldParams h2 (by decide)
          have h8 : 8 ≤ (c :: s').length := by
            rw [show (fieldApiKey : Str).length = 8 from by decide] at hlen
            exact hlen
          have hpre : isPre fieldApiKey (c :: s') = true :=
            isPre_of_append_of_length_le fieldApiKey (c :: s') ('?' :: fieldParams) h2 hlen
          rw [if_pos h2, if_pos hpre]
          have hd0 := @List.drop_append_of_le_length Char (c :: s') ('?' :: fieldParams) 8 h8
          rw [List.cons_append] at hd0
          rw [hd0]
          have hdl : ((c :: s').drop 8).length ≤ m := by
            simp only [List.length_drop, List.length_cons]
            omega
          rw [ih ((c :: s').drop 8) hdl, List.append_assoc]
        · rw [if_neg h2]
          have h2r : ¬ isPre fieldApiKey (c :: s') = true := fun hx =>
            h2 (isPre_append_left fieldApiKey (c :: s') ('?' :: fieldParams) hx)
          rw [if_neg h2r]
          by_cases h3 : isPre fieldParams (c :: (s' ++ '?' :: fieldParams)) = true
          · have hlen : fieldParams.length ≤ (c :: s').length :=
              isPre_length_le_of_append_q fieldParams (c :: s') fieldParams h3 (by decide)
            have h8 : 8 ≤ (c :: s').length := by
              rw [show (fieldParams : Str).length = 8 from by decide] at hlen
              exact hlen
            have hpre : isPre fieldParams (c :: s') = true :=
              isPre_of_append_of_length_le fieldParams (c :: s') ('?' :: fieldParams) h3 hlen
            rw [if_pos h3, if_pos hpre]
            have hd0 := @List.drop_append_of_le_length Char (c :: s') ('?' :: fieldParams) 8 h8
            rw [List.cons_append] at hd0
            rw [hd0]
            have hdl : ((c :: s').drop 8).length ≤ m := by
              simp only [List.length_drop, List.length_cons]
              omega
            rw [ih ((c :: s').drop 8) hdl, List.append_assoc]
          · rw [if_neg h3]
            have h3r : ¬ isPre fieldParams (c :: s') = true := fun hx =>
              h3 (isPre_append_left fieldParams (c :: s') ('?' :: fieldParams) hx)
            rw [if_neg h3r, ih s' hs']
            rfl

theorem subst_fields_template (u a e B : Str) :
    subst_fields u a e (B ++ '?' :: fieldParams) = subst_fields u a e B ++ '?' :: e :=
  subst_fields_splitq u a e B.length B (Nat.le_refl _)

theorem mem_urlunparse_netpath (netloc path : Str) (x : Char)
    (h : x ∈ urlunparse_netpath netloc path) :
    x ∈ netloc ∨ x ∈ path ∨ x = '/' := by
  unfold urlunparse_netpath at h
  split_ifs at h
  · rcases List.mem_cons.mp h with rfl | h
    · exact Or.inr (Or.inr rfl)
    rcases List.mem_cons.mp h with rfl | h
    · exact Or.inr (Or.inr rfl)
    rcases List.mem_append.mp h with h | h
    · exact Or.inl h
    rcases List.mem_cons.mp h with rfl | h
    · exact Or.inr (Or.inr rfl)
    · exact Or.inr (Or.inl h)
  · rcases List.mem_cons.mp h with rfl | h
    · exact Or.inr (Or.inr rfl)
    rcases List.mem_cons.mp h with rfl | h
    · exact Or.inr (Or.inr rfl)
    rcases List.mem_append.mp h with h | h
    · exact Or.inl h
    · exact Or.inr (Or.inl h)
  · exact Or.inr (Or.inl h)

theorem mem_urlunparse_base (scheme netloc path : Str) (x : Char)
    (h : x ∈ urlunparse_base scheme netloc path) :
    x ∈ scheme ∨ x ∈ netloc ∨ x ∈ path ∨ x = '/' ∨ x = ':' := by
  unfold urlunparse_base at h
  split_ifs at h
  · rcases List.mem_append.mp h with h | h
    · exact Or.inl h
    · rcases List.mem_cons.mp h with h | h
      · exact Or.inr (Or.inr (Or.inr (Or.inr h)))
      · rcases mem_urlunparse_netpath netloc path x h with h | h | h
        · exact Or.inr (Or.inl h)
        · exact Or.inr (Or.inr (Or.inl h))
        · exact Or.inr (Or.inr (Or.inr (Or.inl h)))
  · rcases mem_urlunparse_netpath netloc path x h with h | h | h
    · exact Or.inr (Or.inl h)
    · exact Or.inr (Or.inr (Or.inl h))
    · exact Or.inr (Or.inr (Or.inr (Or.inl h)))

theorem strip_no_trailing (SB E : Str) (hSB : '?' ∉ SB) (hE : '?' ∉ E) :
    (if (SB ++ '?' :: E).getLast? = some '?' then (SB ++ '?' :: E).dropLast
     else SB ++ '?' :: E).getLast? ≠ some '?' := by
  cases E with
  | nil =>
    have hlast : (SB ++ ['?']).getLast? = some '?' := by
      rw [List.getLast?_append_of_ne_nil SB (by simp)]
      rfl
    rw [if_pos hlast, List.dropLast_append_of_ne_nil SB (by simp)]
    rw [show (['?'] : Str).dropLast = [] from rfl, List.append_nil]
    intro hq
    exact hSB (List.mem_of_mem_getLast? hq)
  | cons c' E' =>
    have hne : (SB ++ '?' :: c' :: E').getLast? ≠ some '?' := by
      rw [List.getLast?_append_of_ne_nil SB (by simp), List.getLast?_cons_cons]
      intro hq
      exact hE (List.mem_of_mem_getLast? hq)
    rw [if_neg hne]
    exact hne

theorem get_url_no_trailing (cfg : UrlCfg) (path : Str) (websocket remote : Bool)
    (userId : Str) (pass_uid : Bool) (query : List (Str × Str))
    (hpath : '?' ∉ path)
    (hscheme : '?' ∉ (if remote then cfg.urlremote.getD cfg.url else cfg.url).scheme)
    (hnetloc : '?' ∉ (if remote then cfg.urlremote.getD cfg.url else cfg.url).netloc)
    (huser : '?' ∉ userId) (huserid : '?' ∉ cfg.userid) (hapi : '?' ∉ cfg.api_key) :
    (get_url cfg path websocket remote userId pass_uid query).getLast? ≠ some '?' := by
  unfold get_url urlunparse_t
  dsimp only
  rw [subst_fields_template]
  apply strip_no_trailing
  · intro hx
    rcases mem_subst_fields _ _ _ _ _ hx with h | h | h | h
    · rcases mem_urlunparse_base _ _ _ _ h with h | h | h | h | h
      · by_cases hw : websocket = true
        · rw [if_pos hw] at h
          rcases mem_str_replace _ _ _ _ h with h | h
          · exact hscheme h
          · exact absurd h (by decide)
        · rw [if_neg hw] at h
          exact hscheme h
      · exact hnetloc h
      · exact hpath h
      · exact absurd h (by decide)
      · exact absurd h (by decide)
    · by_cases hu : userId ≠ []
      · rw [if_pos hu] at h
        exact huser h
      · rw [if_neg hu] at h
        exact huserid h
    · exact hapi h
    · exact urlencode_no_question _ h
  · exact urlencode_no_question _

theorem urlunparse_base_cons_scheme (scheme netloc path : Str) (h : scheme ≠ []) :
    urlunparse_base scheme netloc path = scheme ++ ':' :: urlunparse_netpath netloc path := by
  unfold urlunparse_base
  rw [if_pos h]

theorem get_url_scheme_split (cfg : UrlCfg) (path : Str) (remote : Bool) (userId : Str)
    (pass_uid : Bool) (query : List (Str × Str)) (S W : Str)
    (hS : (if remote then cfg.urlremote.getD cfg.url else cfg.url).scheme = S)
    (hW : str_replace "http".data "ws".data S = W)
    (hSne : S ≠ []) (hWne : W ≠ []) (hSb : '\x7b' ∉ S) (hWb : '\x7b' ∉ W) :
    ∃ R : Str, R ≠ [] ∧
      get_url cfg path true remote userId pass_uid query = W ++ R ∧
      get_url cfg path false remote userId pass_uid query = S ++ R := by
  unfold get_url urlunparse_t
  dsimp only
  rw [hS, hW]
  rw [show (if (true : Bool) = true then W else S) = W from rfl,
    show (if (false : Bool) = true then W else S) = S from rfl]
  rw [urlunparse_base_cons_scheme W _ path hWne, urlunparse_base_cons_scheme S _ path hSne]
  rw [subst_fields_template, subst_fields_template]
  rw [subst_fields_append_of_no_brace _ _ _ W _ hWb,
    subst_fields_append_of_no_brace _ _ _ S _ hSb]
  rw [subst_fields_cons_copy _ _ _ ':' _ (by decide)]
  rw [List.append_assoc W, List.append_assoc S]
  have hM : (':' :: subst_fields (if userId ≠ [] then userId else cfg.userid) cfg.api_key
      (urlencode (if pass_uid then query ++ [("userId".data,
        if userId ≠ [] then userId else cfg.userid)] else query))
      (urlunparse_netpath (if remote then cfg.urlremote.getD cfg.url else cfg.url).netloc path)) ++
      '?' :: urlencode (if pass_uid then query ++ [("userId".data,
        if userId ≠ [] then userId else cfg.userid)] else query) ≠ [] := by
    simp
  rw [List.getLast?_append_of_ne_nil W hM, List.getLast?_append_of_ne_nil S hM]
  by_cases hq :
    ((':' :: subst_fields (if userId ≠ [] then userId else cfg.userid) cfg.api_key
      (urlencode (if pass_uid then query ++ [("userId".data,
        if userId ≠ [] then userId else cfg.userid)] else query))
      (urlunparse_netpath (if remote then cfg.urlremote.getD cfg.url else cfg.url).netloc path)) ++
      '?' :: urlencode (if pass_uid then query ++ [("userId".data,
        if userId ≠ [] then userId else cfg.userid)] else query)).getLast? = some '?'
  · rw [if_pos hq, if_pos hq, List.dropLast_append_of_ne_nil W hM,
      List.dropLast_append_of_ne_nil S hM]
    refine ⟨_, ?_, rfl, rfl⟩
    intro hc
    have hlc := congrArg List.length hc
    simp only [List.length_dropLast, List.cons_append, List.length_cons, List.length_append,
      List.length_nil] at hlc
    omega
  · rw [if_neg hq, if_neg hq]
    exact ⟨_, hM, rfl, rfl⟩

/-- Claim C9: `get_url` is (in this embedding, by construction) a pure
function of the base/remote host, path, websocket flag, user id, api key and
query parameters.  For every input whose path and connector fields contain no
`?`, the result never ends in a bare `?`; the example query `a = "1 2"`
yields `a=1+2` in a well-formed URL — `urlencode` form-encodes the space as
`+`, the `application/x-www-form-urlencoded` equivalent of `%20`; and the
websocket flag rewrites only the scheme (`http` to `ws`, `https` to `wss`),
leaving everything after the scheme — host, path and query — identical to the
non-websocket result. -/
theorem c9_get_url (cfg : UrlCfg) (path : Str) (remote : Bool) (userId : Str)
    (pass_uid : Bool) (query : List (Str × Str))
    (hpath : '?' ∉ path)
    (hscheme : '?' ∉ (if remote then cfg.urlremote.getD cfg.url else cfg.url).scheme)
    (hnetloc : '?' ∉ (if remote then cfg.urlremote.getD cfg.url else cfg.url).netloc)
    (huser : '?' ∉ userId) (huserid : '?' ∉ cfg.userid) (hapi : '?' ∉ cfg.api_key) :
    (∀ websocket : Bool,
      (get_url cfg path websocket remote userId pass_uid query).getLast? ≠ some '?') ∧
    get_url ⟨⟨"https".data, "host".data⟩, none, "U1".data, "K".data⟩
      "/Users/\x7bUserId\x7d".data false true [] false [("a".data, "1 2".data)] =
      "https://host/Users/U1?a=1+2".data ∧
    ((if remote then cfg.urlremote.getD cfg.url else cfg.url).scheme = "http".data →
      get_url cfg path true remote userId pass_uid query =
        "ws".data ++ (get_url cfg path false remote userId pass_uid query).drop 4 ∧
      (get_url cfg path false remote userId pass_uid query).take 4 = "http".data) ∧
    ((if remote then cfg.urlremote.getD cfg.url else cfg.url).scheme = "https".data →
      get_url cfg path true remote userId pass_uid query =
        "wss".data ++ (get_url cfg path false remote userId pass_uid query).drop 5 ∧
      (get_url cfg path false remote userId pass_uid query).take 5 = "https".data) := by
  refine ⟨fun websocket => get_url_no_trailing cfg path websocket remote userId pass_uid query
      hpath hscheme hnetloc huser huserid hapi, by decide, ?_, ?_⟩
  · intro hs
    obtain ⟨R, hR, hws, hh⟩ := get_url_scheme_split cfg path remote userId pass_uid query
      "http".data "ws".data hs (by decide) (by decide) (by decide) (by decide) (by decide)
    rw [hws, hh]
    constructor
    · rw [List.drop_left' (show ("http".data).length = 4 from by decide)]
    · rw [List.take_left' (show ("http".data).length = 4 from by decide)]
  · intro hs
    obtain ⟨R, hR, hws, hh⟩ := get_url_scheme_split cfg path remote userId pass_uid query
      "https".data "wss".data hs (by decide) (by decide) (by decide) (by decide) (by decide)
    rw [hws, hh]
    constructor
    · rw [List.drop_left' (show ("https".data).length = 5 from by decide)]
    · rw [List.take_left' (show ("https".data).length = 5 from by decide)]

/-- Witness for `c9_get_url` at a concrete connector (`https://host`, user id
`U1`, api key `K`) and the example path and query. -/
theorem c9_get_url_witness :
    (get_url ⟨⟨"https".data, "host".data⟩, none, "U1".data, "K".data⟩
      "/Users/\x7bUserId\x7d".data false true [] false
      [("a".data, "1 2".data)]).getLast? ≠ some '?' ∧
    get_url ⟨⟨"https".data, "host".data⟩, none, "U1".data, "K".data⟩
      "/Users/\x7bUserId\x7d".data true true [] false [("a".data, "1 2".data)] =
      "wss".data ++ (get_url ⟨⟨"https".data, "host".data⟩, none, "U1".data, "K".data⟩
        "/Users/\x7bUserId\x7d".data false true [] false [("a".data, "1 2".data)]).drop 5 :=
  ⟨(c9_get_url ⟨⟨"https".data, "host".data⟩, none, "U1".data, "K".data⟩
      "/Users/\x7bUserId\x7d".data true [] false [("a".data, "1 2".data)]
      (by decide) (by decide) (by decide) (by decide) (by decide) (by decide)).1 false,
   ((c9_get_url ⟨⟨"https".data, "host".data⟩, none, "U1".data, "K".data⟩
      "/Users/\x7bUserId\x7d".data true [] false [("a".data, "1 2".data)]
      (by decide) (by decide) (by decide) (by decide) (by decide) (by decide)).2.2.2
      (by decide)).1⟩
